import Mathlib

/-!
Shallow embedding of the EIP-1559 gas estimator (helper statistics in
src/utils/helperFunctions.js, estimator pipeline in the main script).

Modelling conventions:
* a JavaScript number is modelled as a rational number `ℚ` (all fee values
  and quantile fractions in this program are exactly representable);
* a JavaScript value that is `undefined` or `NaN` is modelled as
  `none : Option ℚ`; arithmetic on such values propagates `none`, matching
  the JavaScript coercion of `undefined` to `NaN` and NaN-propagation;
* the in-place mutation performed by `Array.prototype.sort` is modelled by
  state passing: `quantileCall` returns the contents of the caller's array
  after the call together with the returned value.
-/

/-- `const asc = (arr) => arr.sort((a, b) => a - b)`.
JavaScript's numeric sort rearranges the array into ascending order; its
observable result on a number array is the unique ascending arrangement,
modelled by `List.mergeSort` with the `≤` comparison.  Note the JS sort
mutates its argument in place; `quantileCall` below accounts for that. -/
def asc (arr : List ℚ) : List ℚ := arr.mergeSort (fun a b => a ≤ b)

/-- `const sum = (arr) => arr.reduce((a, b) => a + b, 0)`. -/
def sum (arr : List ℚ) : ℚ := arr.foldl (fun a b => a + b) 0

/-- JavaScript division of two numbers where the result is used as a finite
number: a zero divisor gives a non-finite result (`0/0 = NaN`), modelled as
`none`.  In this program the dividend is always `0` when the divisor is. -/
def jsDiv (a b : ℚ) : Option ℚ := if b = 0 then none else some (a / b)

/-- `Math.round`: round half toward positive infinity, which is exactly
Mathlib's `round` (`round x = ⌊x + 1/2⌋`), returned as a number. -/
def jsRound (x : ℚ) : ℚ := ((round x : ℤ) : ℚ)

/-- `const mean = (arr) => Math.round(sum(arr) / arr.length)`.
On the empty array this evaluates `0 / 0 = NaN` and `Math.round(NaN) = NaN`,
modelled by `none` propagation through `jsDiv`. -/
def mean (arr : List ℚ) : Option ℚ := (jsDiv (sum arr) (arr.length : ℚ)).map jsRound

/-- JavaScript array indexing `l[i]` with an arbitrary integer index:
out-of-range access yields `undefined`, modelled as `none`. -/
def getIdx (l : List ℚ) (i : ℤ) : Option ℚ :=
  if h : 0 ≤ i ∧ i.toNat < l.length then some (l.get ⟨i.toNat, h.2⟩) else none

/-- JavaScript `+` on possibly-undefined values: any non-number operand
makes the result NaN (`none`). -/
def jsAdd (a b : Option ℚ) : Option ℚ :=
  match a, b with
  | some x, some y => some (x + y)
  | _, _ => none

/-- JavaScript `-` on possibly-undefined values. -/
def jsSub (a b : Option ℚ) : Option ℚ :=
  match a, b with
  | some x, some y => some (x - y)
  | _, _ => none

/-- The `quantile` function of src/utils/helperFunctions.js:
```
const quantile = (arr, q) => {
    const sorted = asc(arr)
    const pos = (sorted.length - 1) * q
    const base = Math.floor(pos)
    const rest = pos - base
    if (sorted[base + 1] !== undefined) {
        return sorted[base] + rest * (sorted[base + 1] - sorted[base])
    } else {
        return sorted[base]
    }
}
```
The returned value only; the in-place sorting of `arr` is modelled by
`quantileCall`. -/
def quantile (arr : List ℚ) (q : ℚ) : Option ℚ :=
  let sorted := asc arr
  let pos : ℚ := ((sorted.length : ℚ) - 1) * q
  let base : ℤ := ⌊pos⌋
  let rest : ℚ := pos - (base : ℚ)
  if (getIdx sorted (base + 1)).isSome then
    jsAdd (getIdx sorted base) ((jsSub (getIdx sorted (base + 1)) (getIdx sorted base)).map
      (fun d => rest * d))
  else
    getIdx sorted base

/-- State-passing account of a call `quantile(arr, q)`: `asc` calls
`Array.prototype.sort`, which sorts the caller's array in place (and returns
the same array object), so after the call the caller's array holds
`asc arr`; the second component is the value the call returns. -/
def quantileCall (arr : List ℚ) (q : ℚ) : List ℚ × Option ℚ := (asc arr, quantile arr q)

/-- Modelled from the spec (section 4.1): the type-7 linear-interpolation
quantile estimator, written as a total function on a non-empty sample list —
a fractional rank `pos = (length − 1) * q` over the ascending-sorted copy,
`base = floor pos`, `rest = pos − base`, interpolating between
`sorted[base]` and `sorted[base + 1]` when the latter index exists.  Used as
the specification side of the refinement claim about `quantile`. -/
def quantileSpec (samples : List ℚ) (q : ℚ) : ℚ :=
  let sorted := asc samples
  let pos : ℚ := ((sorted.length : ℚ) - 1) * q
  let base : ℕ := (⌊pos⌋).toNat
  let rest : ℚ := pos - (base : ℚ)
  if base + 1 < sorted.length then
    sorted.getD base 0 + rest * (sorted.getD (base + 1) 0 - sorted.getD base 0)
  else
    sorted.getD base 0

/-- `sum` applied to an array whose entries may be `undefined` (as happens
in `gasEstimator` when a sampled block had no type-2 transactions): the
JavaScript `reduce((a, b) => a + b, 0)` turns any `undefined` entry into a
NaN accumulator that then propagates. -/
def sumN (l : List (Option ℚ)) : Option ℚ := l.foldl jsAdd (some 0)

/-- `mean` applied to an array whose entries may be `undefined`:
`Math.round(sum(arr) / arr.length)` with NaN propagation. -/
def meanN (l : List (Option ℚ)) : Option ℚ :=
  (sumN l).bind (fun s => (jsDiv s (l.length : ℚ)).map jsRound)

/-- A transaction as consumed by `dataFormatter`: its EIP-2718 `type` and
its `maxPriorityFeePerGas` (after `.toNumber()`). -/
structure Transaction where
  type : ℕ
  maxPriorityFeePerGas : ℚ

/-- A block with its transaction list, as returned by
`getBlockWithTransactions` (the fields `dataFormatter` destructures). -/
structure Block where
  number : ℤ
  baseFeePerGas : ℚ
  gasUsed : ℚ
  gasLimit : ℚ
  transactions : List Transaction

/-- The object literal `dataFormatter` returns (a block fee summary). -/
structure BlockSummary where
  number : ℤ
  baseFeePerGas : ℚ
  maxPriorityFeePerGas : List (Option ℚ)
  gasUsedRatio : Option ℚ

/-- The sample sequence `maxPriorityFeePerGasArray` built inside
`dataFormatter`: the priority fees of the type-2 transactions. -/
def feeSamples (b : Block) : List ℚ :=
  (b.transactions.filter (fun tx => tx.type == 2)).map (fun tx => tx.maxPriorityFeePerGas)

/-- `function dataFormatter(blocks)`: filters the type-2 transactions,
extracts their priority fees, and summarizes the block with the 0.3 / 0.6 /
0.9 quantiles of those samples.  The three `quantile` calls in the source
receive the same (mutated, hence by then sorted) array; since `quantile`
depends on its argument only through `asc` and `asc` is idempotent on the
values, passing the original list to each call is value-faithful. -/
def dataFormatter (b : Block) : BlockSummary :=
  { number := b.number
    baseFeePerGas := b.baseFeePerGas
    maxPriorityFeePerGas :=
      [quantile (feeSamples b) 0.3, quantile (feeSamples b) 0.6, quantile (feeSamples b) 0.9]
    gasUsedRatio := jsDiv b.gasUsed b.gasLimit }

/-- The external data source consumed by `gasEstimator`: the current block
number, the confirmed blocks by number, and the pending block's
`baseFeePerGas` (after `.toNumber()`). -/
structure Provider where
  blockNumber : ℤ
  getBlock : ℤ → Block
  pendingBaseFee : ℚ

/-- The `{ slow, average, fast }` object `gasEstimator` produces. -/
structure Estimate where
  slow : Option ℚ
  average : Option ℚ
  fast : Option ℚ

/-- The block numbers fetched by the loop
`for (let i = blockNumber - 4; i < blockNumber; i++)`: the four most recent
confirmed blocks, excluding the still-unconfirmed current block. -/
def windowNumbers (n : ℤ) : List ℤ := (List.range 4).map (fun i => n - 4 + (i : ℤ))

/-- JavaScript indexing of the tier array `block.maxPriorityFeePerGas[i]`
whose entries may themselves be `undefined`. -/
def atJs (l : List (Option ℚ)) (i : ℕ) : Option ℚ := (l.get? i).join

/-- `async function gasEstimator()`: formats the four sampled blocks, takes
the `mean` of each tier across the window and adds the pending block's base
fee to each.  I/O (provider calls, console output) is abstracted into the
`Provider` argument and the returned `Estimate`. -/
def gasEstimator (p : Provider) : Estimate :=
  let blocks := (windowNumbers p.blockNumber).map (fun i => dataFormatter (p.getBlock i))
  let slowMaxPriorityFee := meanN (blocks.map (fun b => atJs b.maxPriorityFeePerGas 0))
  let averageMaxPriorityFee := meanN (blocks.map (fun b => atJs b.maxPriorityFeePerGas 1))
  let fastMaxPriorityFee := meanN (blocks.map (fun b => atJs b.maxPriorityFeePerGas 2))
  { slow := slowMaxPriorityFee.map (fun t => p.pendingBaseFee + t)
    average := averageMaxPriorityFee.map (fun t => p.pendingBaseFee + t)
    fast := fastMaxPriorityFee.map (fun t => p.pendingBaseFee + t) }

/-! Basic facts about `asc`. -/

lemma asc_perm (arr : List ℚ) : (asc arr).Perm arr :=
  List.mergeSort_perm arr _

lemma asc_sorted (arr : List ℚ) : List.Sorted (fun a b => a ≤ b) (asc arr) := by
  have h := @List.sorted_mergeSort ℚ (fun a b => decide (a ≤ b))
    (fun a b c hab hbc => by
      simp only [decide_eq_true_eq] at hab hbc ⊢; exact le_trans hab hbc)
    (fun a b => by
      simp only [Bool.or_eq_true, decide_eq_true_eq]; exact le_total a b) arr
  simpa [List.Sorted, decide_eq_true_eq] using h

lemma asc_length (arr : List ℚ) : (asc arr).length = arr.length :=
  (asc_perm arr).length_eq

lemma asc_eq_of_sorted {l : List ℚ} (h : List.Sorted (fun a b => a ≤ b) l) : asc l = l :=
  List.mergeSort_eq_self h

lemma sorted_getD_mono {s : List ℚ} (hs : List.Sorted (fun a b => a ≤ b) s)
    {i j : ℕ} (hij : i ≤ j) (hj : j < s.length) : s.getD i 0 ≤ s.getD j 0 := by
  have hi : i < s.length := lt_of_le_of_lt hij hj
  rw [List.getD_eq_getElem _ _ hi, List.getD_eq_getElem _ _ hj]
  have h := hs.rel_get_of_le (show (⟨i, hi⟩ : Fin s.length) ≤ ⟨j, hj⟩ from hij)
  simpa [List.get_eq_getElem] using h

lemma getIdx_eq_some {l : List ℚ} {i : ℤ} (h0 : 0 ≤ i) (h : i.toNat < l.length) :
    getIdx l i = some (l.getD i.toNat 0) := by
  unfold getIdx
  rw [dif_pos ⟨h0, h⟩, List.getD_eq_getElem _ _ h]
  simp [List.get_eq_getElem]

lemma getIdx_eq_none {l : List ℚ} {i : ℤ} (h : ¬(0 ≤ i ∧ i.toNat < l.length)) :
    getIdx l i = none := by
  unfold getIdx
  rw [dif_neg h]

lemma quantile_empty (q : ℚ) : quantile [] q = none := by
  have hasc : asc ([] : List ℚ) = [] := by
    simp [asc]
  simp [quantile, hasc, getIdx]

lemma sum_eq_listSum (arr : List ℚ) : sum arr = arr.sum := by
  simp only [sum]
  rw [← List.sum_eq_foldl]

/-- Claim C3, counterexample: the call `quantile([2,1], 0.5)` does mutate the
caller's sequence — afterwards the array holds `[1, 2]`, not `[2, 1]`,
because `asc` uses the in-place `Array.prototype.sort`. -/
theorem quantileCall_mutates_input : (quantileCall [2, 1] 0.5).1 ≠ [2, 1] := by
  have hsorted : List.Sorted (fun a b : ℚ => a ≤ b) [1, 2] := by
    norm_num [List.sorted_cons]
  have h : asc [2, 1] = [1, 2] :=
    List.eq_of_perm_of_sorted ((asc_perm [2, 1]).trans (List.Perm.swap 1 2 []))
      (asc_sorted _) hsorted
  simp only [quantileCall, h]
  intro hcontra
  injection hcontra with h1 h2
  norm_num at h1

/-- Claim C3, amended: `quantile` sorts the caller's sequence in place — after
the call the sequence holds the same elements rearranged into ascending order
(a sorted permutation of the original), and the returned value is computed
from that sorted sequence. -/
theorem quantileCall_sorts_in_place (arr : List ℚ) (q : ℚ) :
    (quantileCall arr q).1.Perm arr ∧
      List.Sorted (fun a b => a ≤ b) (quantileCall arr q).1 ∧
      (quantileCall arr q).2 = quantile arr q :=
  ⟨asc_perm arr, asc_sorted arr, rfl⟩

/-- Claim C4, counterexample: `mean([])` divides by the length `0` with no
guard — the divisor is zero and the call yields the non-numeric NaN
(modelled `none`) instead of a defined empty-input error or sentinel. -/
theorem mean_empty_unguarded_div :
    ((([] : List ℚ).length : ℚ) = 0) ∧ mean ([] : List ℚ) = none := by
  constructor
  · simp
  · simp [mean, sum, jsDiv]

/-- Claim C4, amended: `mean([])` performs the unguarded division `0 / 0`,
silently yielding NaN (modelled `none`), and `quantile([], q)` evaluates to
`undefined` (modelled `none`) for every `q`; neither signals an explicit
empty-input error. -/
theorem mean_quantile_empty_behaviour :
    mean ([] : List ℚ) = none ∧ ∀ q : ℚ, quantile [] q = none :=
  ⟨by simp [mean, sum, jsDiv], fun q => quantile_empty q⟩

/-- Claim C8: `sum([]) = 0`, `sum([a]) = a`, and `sum` is invariant under
reordering of its input. -/
theorem sum_empty_singleton_perm :
    sum ([] : List ℚ) = 0 ∧ (∀ a : ℚ, sum [a] = a) ∧
      ∀ l1 l2 : List ℚ, l1.Perm l2 → sum l1 = sum l2 := by
  refine ⟨rfl, fun a => by simp [sum], fun l1 l2 h => ?_⟩
  rw [sum_eq_listSum, sum_eq_listSum]
  exact h.sum_eq

/-- Witness for claim C8 at the concrete reordering `[1,2] ~ [2,1]`. -/
theorem sum_perm_witness : sum [(1 : ℚ), 2] = sum [2, 1] :=
  sum_empty_singleton_perm.2.2 [1, 2] [2, 1] (List.Perm.swap 2 1 [])

/-- Claim C7: for a non-empty sequence, `mean` is the sum of the elements
divided by the length, rounded to the nearest integer (`Math.round`, i.e.
round half up, which is Mathlib's `round`). -/
theorem mean_eq_round_sum_div_length (arr : List ℚ) (hne : arr ≠ []) :
    mean arr = some ((round (arr.sum / (arr.length : ℚ)) : ℤ) : ℚ) := by
  have h0 : arr.length ≠ 0 := fun h => hne (List.length_eq_zero.1 h)
  have hlen : (arr.length : ℚ) ≠ 0 := Nat.cast_ne_zero.2 h0
  simp [mean, jsDiv, hlen, jsRound, sum_eq_listSum]

/-- Witness for claim C7 at the concrete input `[1, 2]`. -/
theorem mean_round_witness :
    mean [(1 : ℚ), 2] =
      some ((round (([(1 : ℚ), 2].sum) / (([(1 : ℚ), 2].length : ℚ))) : ℤ) : ℚ) :=
  mean_eq_round_sum_div_length [1, 2] (by simp)

/-- The value the quantile formula assigns at fractional rank `p` of an
already-sorted list; reasoning helper shared by several proofs below. -/
def rankValue (s : List ℚ) (p : ℚ) : ℚ :=
  if (⌊p⌋).toNat + 1 < s.length then
    s.getD (⌊p⌋).toNat 0 + (p - ((⌊p⌋).toNat : ℚ)) *
      (s.getD ((⌊p⌋).toNat + 1) 0 - s.getD (⌊p⌋).toNat 0)
  else
    s.getD (⌊p⌋).toNat 0

lemma quantileSpec_eq_rankValue (samples : List ℚ) (q : ℚ) :
    quantileSpec samples q = rankValue (asc samples) ((((asc samples).length : ℚ) - 1) * q) :=
  rfl

/-- On a non-empty input and a quantile fraction in `[0, 1]`, the code's
`quantile` returns exactly the interpolated value at rank `(length − 1) * q`
of the sorted copy — no out-of-range access happens. -/
lemma quantile_eq_quantileSpec (arr : List ℚ) (hne : arr ≠ []) {q : ℚ}
    (h0 : 0 ≤ q) (h1 : q ≤ 1) : quantile arr q = some (quantileSpec arr q) := by
  rw [quantileSpec_eq_rankValue]
  simp only [quantile]
  set s := asc arr with hs
  set n := s.length with hn
  set pos : ℚ := ((n : ℚ) - 1) * q with hposdef
  have hlen0 : 0 < n := by
    rw [hn, hs, asc_length]
    exact List.length_pos.2 hne
  have h1n : (1 : ℚ) ≤ (n : ℚ) := by exact_mod_cast hlen0
  have hpos0 : 0 ≤ pos := by
    rw [hposdef]
    exact mul_nonneg (by linarith) h0
  have hposle : pos ≤ (n : ℚ) - 1 := by
    rw [hposdef]
    calc ((n : ℚ) - 1) * q ≤ ((n : ℚ) - 1) * 1 := mul_le_mul_of_nonneg_left h1 (by linarith)
      _ = (n : ℚ) - 1 := mul_one _
  have hfl0 : 0 ≤ ⌊pos⌋ := Int.floor_nonneg.2 hpos0
  have hfl_le : ⌊pos⌋ ≤ (n : ℤ) - 1 := by
    have h2 : pos ≤ (((n : ℤ) - 1 : ℤ) : ℚ) := by push_cast; linarith
    have h3 := Int.floor_le_floor h2
    rwa [Int.floor_intCast] at h3
  have hbz : ((⌊pos⌋.toNat : ℤ)) = ⌊pos⌋ := Int.toNat_of_nonneg hfl0
  have hbn : ⌊pos⌋.toNat < n := by omega
  have hcast : ((⌊pos⌋.toNat : ℕ) : ℚ) = ((⌊pos⌋ : ℤ) : ℚ) := by exact_mod_cast hbz
  have hcur : getIdx s ⌊pos⌋ = some (s.getD ⌊pos⌋.toNat 0) := getIdx_eq_some hfl0 hbn
  by_cases hb1 : ⌊pos⌋.toNat + 1 < n
  · have htn : (⌊pos⌋ + 1).toNat = ⌊pos⌋.toNat + 1 := by omega
    have hnext : getIdx s (⌊pos⌋ + 1) = some (s.getD (⌊pos⌋.toNat + 1) 0) := by
      have h4 := getIdx_eq_some (l := s) (i := ⌊pos⌋ + 1) (by omega) (by omega)
      rwa [htn] at h4
    rw [hcur, hnext]
    simp only [Option.isSome_some, if_true, jsAdd, jsSub, Option.map_some]
    rw [rankValue, if_pos hb1, hcast]
    rfl
  · have hnext : getIdx s (⌊pos⌋ + 1) = none := by
      apply getIdx_eq_none
      intro hcon
      omega
    rw [hcur, hnext]
    simp only [Option.isSome_none, Bool.false_eq_true, if_false]
    rw [rankValue, if_neg hb1]

lemma rest_nonneg {p : ℚ} (h0 : 0 ≤ p) : 0 ≤ p - ((⌊p⌋).toNat : ℚ) := by
  have hbz : ((⌊p⌋.toNat : ℤ)) = ⌊p⌋ := Int.toNat_of_nonneg (Int.floor_nonneg.2 h0)
  have hcast : ((⌊p⌋.toNat : ℕ) : ℚ) = ((⌊p⌋ : ℤ) : ℚ) := by exact_mod_cast hbz
  rw [hcast]
  have h := Int.floor_le p
  linarith

lemma rest_le_one {p : ℚ} (h0 : 0 ≤ p) : p - ((⌊p⌋).toNat : ℚ) ≤ 1 := by
  have hbz : ((⌊p⌋.toNat : ℤ)) = ⌊p⌋ := Int.toNat_of_nonneg (Int.floor_nonneg.2 h0)
  have hcast : ((⌊p⌋.toNat : ℕ) : ℚ) = ((⌊p⌋ : ℤ) : ℚ) := by exact_mod_cast hbz
  rw [hcast]
  have h := Int.lt_floor_add_one p
  linarith

lemma rankValue_lower {s : List ℚ} (hs : List.Sorted (fun a b => a ≤ b) s) {p : ℚ}
    (h0 : 0 ≤ p) : s.getD (⌊p⌋).toNat 0 ≤ rankValue s p := by
  rw [rankValue]
  split_ifs with h
  · have hd : 0 ≤ s.getD ((⌊p⌋).toNat + 1) 0 - s.getD (⌊p⌋).toNat 0 :=
      sub_nonneg.2 (sorted_getD_mono hs (Nat.le_succ _) h)
    have hr := rest_nonneg h0
    nlinarith
  · exact le_refl _

lemma rankValue_upper {s : List ℚ} (hs : List.Sorted (fun a b => a ≤ b) s) {p : ℚ}
    (h0 : 0 ≤ p) (h : (⌊p⌋).toNat + 1 < s.length) :
    rankValue s p ≤ s.getD ((⌊p⌋).toNat + 1) 0 := by
  rw [rankValue, if_pos h]
  have hd : 0 ≤ s.getD ((⌊p⌋).toNat + 1) 0 - s.getD (⌊p⌋).toNat 0 :=
    sub_nonneg.2 (sorted_getD_mono hs (Nat.le_succ _) h)
  have hr1 := rest_le_one h0
  nlinarith

/-- The interpolated value is monotone in the fractional rank over a sorted
list: the heart of the quantile-monotonicity claims. -/
lemma rankValue_mono {s : List ℚ} (hs : List.Sorted (fun a b => a ≤ b) s) {p1 p2 : ℚ}
    (h0 : 0 ≤ p1) (h12 : p1 ≤ p2) (h2 : p2 ≤ (s.length : ℚ) - 1) :
    rankValue s p1 ≤ rankValue s p2 := by
  have h02 : 0 ≤ p2 := le_trans h0 h12
  have hlenq : (1 : ℚ) ≤ (s.length : ℚ) := by linarith
  have hn1 : 1 ≤ s.length := by exact_mod_cast hlenq
  have hfl1 : 0 ≤ ⌊p1⌋ := Int.floor_nonneg.2 h0
  have hfl2 : 0 ≤ ⌊p2⌋ := Int.floor_nonneg.2 h02
  have hfl12 : ⌊p1⌋ ≤ ⌊p2⌋ := Int.floor_le_floor h12
  have hfl2le : ⌊p2⌋ ≤ (s.length : ℤ) - 1 := by
    have h3 : p2 ≤ (((s.length : ℤ) - 1 : ℤ) : ℚ) := by push_cast; linarith
    have h4 := Int.floor_le_floor h3
    rwa [Int.floor_intCast] at h4
  have hb2 : (⌊p2⌋).toNat < s.length := by omega
  have hb12 : (⌊p1⌋).toNat ≤ (⌊p2⌋).toNat := by omega
  rcases eq_or_lt_of_le hb12 with heq | hlt
  · by_cases hif : (⌊p1⌋).toNat + 1 < s.length
    · rw [rankValue, rankValue, ← heq, if_pos hif, if_pos hif]
      have hd : 0 ≤ s.getD ((⌊p1⌋).toNat + 1) 0 - s.getD (⌊p1⌋).toNat 0 :=
        sub_nonneg.2 (sorted_getD_mono hs (Nat.le_succ _) hif)
      have hr12 : p1 - ((⌊p1⌋).toNat : ℚ) ≤ p2 - ((⌊p1⌋).toNat : ℚ) := by linarith
      nlinarith
    · rw [rankValue, rankValue, ← heq, if_neg hif, if_neg hif]
  · have h1lt : (⌊p1⌋).toNat + 1 < s.length := by omega
    calc rankValue s p1 ≤ s.getD ((⌊p1⌋).toNat + 1) 0 := rankValue_upper hs h0 h1lt
      _ ≤ s.getD (⌊p2⌋).toNat 0 := sorted_getD_mono hs (by omega) hb2
      _ ≤ rankValue s p2 := rankValue_lower hs h02

/-- Monotonicity of the spec-side quantile in the fraction `q`. -/
lemma quantileSpec_mono (arr : List ℚ) (hne : arr ≠ []) {q1 q2 : ℚ}
    (h0 : 0 ≤ q1) (h12 : q1 ≤ q2) (h2 : q2 ≤ 1) :
    quantileSpec arr q1 ≤ quantileSpec arr q2 := by
  have hlen0 : 0 < (asc arr).length := by
    rw [asc_length]
    exact List.length_pos.2 hne
  have h1n : (1 : ℚ) ≤ ((asc arr).length : ℚ) := by exact_mod_cast hlen0
  rw [quantileSpec_eq_rankValue, quantileSpec_eq_rankValue]
  apply rankValue_mono (asc_sorted arr)
  · exact mul_nonneg (by linarith) h0
  · exact mul_le_mul_of_nonneg_left h12 (by linarith)
  · calc (((asc arr).length : ℚ) - 1) * q2 ≤ (((asc arr).length : ℚ) - 1) * 1 :=
        mul_le_mul_of_nonneg_left h2 (by linarith)
      _ = ((asc arr).length : ℚ) - 1 := mul_one _

/-- Claim C5: on any non-empty sample list the 0.3 / 0.6 / 0.9 quantiles are
defined and non-decreasing, and hence the `priorityFeeTiers` triple of every
block fee summary built by `dataFormatter` from a block with at least one
type-2 transaction is non-decreasing. -/
theorem quantile_tiers_monotone :
    (∀ arr : List ℚ, arr ≠ [] →
      ∃ a b c, quantile arr 0.3 = some a ∧ quantile arr 0.6 = some b ∧
        quantile arr 0.9 = some c ∧ a ≤ b ∧ b ≤ c) ∧
    (∀ blk : Block, feeSamples blk ≠ [] →
      ∃ a b c, (dataFormatter blk).maxPriorityFeePerGas = [some a, some b, some c] ∧
        a ≤ b ∧ b ≤ c) := by
  have key : ∀ arr : List ℚ, arr ≠ [] →
      ∃ a b c, quantile arr 0.3 = some a ∧ quantile arr 0.6 = some b ∧
        quantile arr 0.9 = some c ∧ a ≤ b ∧ b ≤ c := by
    intro arr hne
    exact ⟨quantileSpec arr 0.3, quantileSpec arr 0.6, quantileSpec arr 0.9,
      quantile_eq_quantileSpec arr hne (by norm_num) (by norm_num),
      quantile_eq_quantileSpec arr hne (by norm_num) (by norm_num),
      quantile_eq_quantileSpec arr hne (by norm_num) (by norm_num),
      quantileSpec_mono arr hne (by norm_num) (by norm_num) (by norm_num),
      quantileSpec_mono arr hne (by norm_num) (by norm_num) (by norm_num)⟩
  refine ⟨key, fun blk hne => ?_⟩
  obtain ⟨a, b, c, h3, h6, h9, hab, hbc⟩ := key (feeSamples blk) hne
  exact ⟨a, b, c, by simp [dataFormatter, h3, h6, h9], hab, hbc⟩

/-- Witness for claim C5 at the concrete non-empty input `[1, 2]`. -/
theorem quantile_tiers_monotone_witness :
    ∃ a b c, quantile ([1, 2] : List ℚ) 0.3 = some a ∧
      quantile ([1, 2] : List ℚ) 0.6 = some b ∧
      quantile ([1, 2] : List ℚ) 0.9 = some c ∧ a ≤ b ∧ b ≤ c :=
  quantile_tiers_monotone.1 [1, 2] (by simp)

lemma rankValue_zero (s : List ℚ) : rankValue s 0 = s.getD 0 0 := by
  rw [rankValue]
  simp

lemma rankValue_last (s : List ℚ) (hn : 0 < s.length) :
    rankValue s ((s.length : ℚ) - 1) = s.getD (s.length - 1) 0 := by
  have hfl : ⌊((s.length : ℚ) - 1)⌋ = (s.length : ℤ) - 1 := by
    have hc : ((s.length : ℚ) - 1) = (((s.length : ℤ) - 1 : ℤ) : ℚ) := by push_cast; ring
    rw [hc, Int.floor_intCast]
  have htn : (⌊((s.length : ℚ) - 1)⌋).toNat = s.length - 1 := by omega
  rw [rankValue, htn, if_neg (by omega)]

lemma getD_mem {s : List ℚ} {i : ℕ} (h : i < s.length) : s.getD i 0 ∈ s := by
  rw [List.getD_eq_getElem _ _ h]
  exact List.getElem_mem h

/-- Claim C6: `quantile(samples, 0)` is the minimum element,
`quantile(samples, 1)` is the maximum element, and on a singleton the result
is the element itself for every `q` in `[0, 1]`. -/
theorem quantile_min_max_singleton :
    (∀ arr : List ℚ, arr ≠ [] →
      ∃ m, quantile arr 0 = some m ∧ m ∈ arr ∧ ∀ x ∈ arr, m ≤ x) ∧
    (∀ arr : List ℚ, arr ≠ [] →
      ∃ m, quantile arr 1 = some m ∧ m ∈ arr ∧ ∀ x ∈ arr, x ≤ m) ∧
    (∀ (x q : ℚ), 0 ≤ q → q ≤ 1 → quantile [x] q = some x) := by
  refine ⟨fun arr hne => ?_, fun arr hne => ?_, fun x q h0 h1 => ?_⟩
  · have hn : 0 < (asc arr).length := by
      rw [asc_length]
      exact List.length_pos.2 hne
    have hq := quantile_eq_quantileSpec arr hne (le_refl 0) zero_le_one
    have hv : quantileSpec arr 0 = (asc arr).getD 0 0 := by
      rw [quantileSpec_eq_rankValue, mul_zero, rankValue_zero]
    refine ⟨(asc arr).getD 0 0, by rw [hq, hv], (asc_perm arr).mem_iff.1 (getD_mem hn), ?_⟩
    intro x hx
    obtain ⟨i, hi⟩ := List.mem_iff_get.1 ((asc_perm arr).mem_iff.2 hx)
    have hle := sorted_getD_mono (asc_sorted arr) (Nat.zero_le i.1) i.isLt
    rw [List.getD_eq_getElem _ _ i.isLt, ← List.get_eq_getElem, hi] at hle
    exact hle
  · have hn : 0 < (asc arr).length := by
      rw [asc_length]
      exact List.length_pos.2 hne
    have hq := quantile_eq_quantileSpec arr hne zero_le_one (le_refl 1)
    have hv : quantileSpec arr 1 = (asc arr).getD ((asc arr).length - 1) 0 := by
      rw [quantileSpec_eq_rankValue, mul_one, rankValue_last _ hn]
    refine ⟨(asc arr).getD ((asc arr).length - 1) 0, by rw [hq, hv],
      (asc_perm arr).mem_iff.1 (getD_mem (by omega)), ?_⟩
    intro x hx
    obtain ⟨i, hi⟩ := List.mem_iff_get.1 ((asc_perm arr).mem_iff.2 hx)
    have hle := sorted_getD_mono (asc_sorted arr) (show i.1 ≤ (asc arr).length - 1 by
      have := i.isLt; omega) (by omega)
    rw [List.getD_eq_getElem _ _ i.isLt, ← List.get_eq_getElem, hi] at hle
    exact hle
  · have hasc : asc [x] = [x] := asc_eq_of_sorted (List.sorted_singleton x)
    have hq := quantile_eq_quantileSpec [x] (by simp) h0 h1
    have hv : quantileSpec [x] q = x := by
      rw [quantileSpec_eq_rankValue, hasc]
      norm_num [rankValue_zero]
    rw [hq, hv]

/-- Witness for claim C6: the minimum part at `[2, 1]`, and the singleton
part at `x = 5`, `q = 1/2`. -/
theorem quantile_min_max_singleton_witness :
    (∃ m, quantile ([2, 1] : List ℚ) 0 = some m ∧ m ∈ ([2, 1] : List ℚ) ∧
      ∀ x ∈ ([2, 1] : List ℚ), m ≤ x) ∧ quantile [(5 : ℚ)] (1/2) = some 5 :=
  ⟨quantile_min_max_singleton.1 [2, 1] (by simp),
    quantile_min_max_singleton.2.2 5 (1/2) (by norm_num) (by norm_num)⟩

/-- Claim C1: for every non-empty sample list and `q` in `[0, 1]`, `quantile`
returns exactly the type-7 linear-interpolation estimate `quantileSpec`; in
particular `quantile([1,2,3,4,5], 0.5) = 3` and
`quantile([1,2,3,4], 0.5) = 2.5`. -/
theorem quantile_is_type7 :
    (∀ (samples : List ℚ) (q : ℚ), samples ≠ [] → 0 ≤ q → q ≤ 1 →
      quantile samples q = some (quantileSpec samples q)) ∧
    quantile [1, 2, 3, 4, 5] 0.5 = some 3 ∧ quantile [1, 2, 3, 4] 0.5 = some (5/2) := by
  refine ⟨fun samples q hne h0 h1 => quantile_eq_quantileSpec samples hne h0 h1, ?_, ?_⟩
  · have hasc : asc [1, 2, 3, 4, 5] = [1, 2, 3, 4, 5] :=
      asc_eq_of_sorted (by norm_num [List.sorted_cons])
    rw [quantile_eq_quantileSpec [1, 2, 3, 4, 5] (by simp) (by norm_num) (by norm_num)]
    congr 1
    rw [quantileSpec_eq_rankValue, hasc]
    norm_num [rankValue, List.getD, show Int.toNat 2 = 2 from rfl]
  · have hasc : asc [1, 2, 3, 4] = [1, 2, 3, 4] :=
      asc_eq_of_sorted (by norm_num [List.sorted_cons])
    rw [quantile_eq_quantileSpec [1, 2, 3, 4] (by simp) (by norm_num) (by norm_num)]
    congr 1
    rw [quantileSpec_eq_rankValue, hasc]
    norm_num [rankValue, List.getD, show Int.toNat 1 = 1 from rfl]

/-- Witness for claim C1 at the concrete input `[3, 1]`, `q = 1/2`. -/
theorem quantile_is_type7_witness :
    quantile ([3, 1] : List ℚ) (1/2) = some (quantileSpec ([3, 1] : List ℚ) (1/2)) :=
  quantile_is_type7.1 [3, 1] (1/2) (by simp) (by norm_num) (by norm_num)

lemma range_four : List.range 4 = [0, 1, 2, 3] := by rfl

lemma windowNumbers_eq (n : ℤ) : windowNumbers n = [n - 4, n - 3, n - 2, n - 1] := by
  simp [windowNumbers, range_four]
  omega

lemma jsAdd_none_right (a : Option ℚ) : jsAdd a none = none := by
  cases a <;> rfl

lemma meanN_four (a b c d : ℚ) :
    meanN [some a, some b, some c, some d] = some (jsRound ((0 + a + b + c + d) / 4)) := by
  norm_num [meanN, sumN, jsAdd, jsDiv, List.foldl]

lemma meanN_nones : meanN [none, none, none, none] = none := rfl

lemma jsRound_mono {x y : ℚ} (h : x ≤ y) : jsRound x ≤ jsRound y := by
  simp only [jsRound, round_eq]
  have hf := Int.floor_le_floor (show x + 1/2 ≤ y + 1/2 by linarith)
  exact_mod_cast hf

/-- Unfolding of `gasEstimator` down to the per-block quantile calls: each
tier is the mean over the window of the corresponding quantile of that
block's type-2 priority-fee samples, and each bid adds the pending base
fee. -/
lemma gasEstimator_eq (p : Provider) :
    gasEstimator p =
      { slow := (meanN ((windowNumbers p.blockNumber).map
            (fun k => quantile (feeSamples (p.getBlock k)) 0.3))).map
              (fun t => p.pendingBaseFee + t)
        average := (meanN ((windowNumbers p.blockNumber).map
            (fun k => quantile (feeSamples (p.getBlock k)) 0.6))).map
              (fun t => p.pendingBaseFee + t)
        fast := (meanN ((windowNumbers p.blockNumber).map
            (fun k => quantile (feeSamples (p.getBlock k)) 0.9))).map
              (fun t => p.pendingBaseFee + t) } := by
  have h0 : ∀ i : ℤ, atJs (dataFormatter (p.getBlock i)).maxPriorityFeePerGas 0 =
      quantile (feeSamples (p.getBlock i)) 0.3 := fun i => by simp [dataFormatter, atJs]
  have h1 : ∀ i : ℤ, atJs (dataFormatter (p.getBlock i)).maxPriorityFeePerGas 1 =
      quantile (feeSamples (p.getBlock i)) 0.6 := fun i => by simp [dataFormatter, atJs]
  have h2 : ∀ i : ℤ, atJs (dataFormatter (p.getBlock i)).maxPriorityFeePerGas 2 =
      quantile (feeSamples (p.getBlock i)) 0.9 := fun i => by simp [dataFormatter, atJs]
  simp only [gasEstimator, List.map_map, Function.comp_def, h0, h1, h2]

/-- A type-2 (fee-market) transaction paying priority fee `v`. -/
def mkTx (v : ℚ) : Transaction := { type := 2, maxPriorityFeePerGas := v }

/-- A fixture block whose type-2 transactions pay the given priority fees. -/
def scenarioBlock (num : ℤ) (fees : List ℚ) : Block :=
  { number := num, baseFeePerGas := 0, gasUsed := 0, gasLimit := 1,
    transactions := fees.map mkTx }

/-- Priority-fee samples realizing the tier triple
`[1500000000, 2000000000, 4414699130]`: with 11 samples the 0.3 / 0.6 / 0.9
ranks fall exactly on indices 3, 6 and 9 of the sorted list. -/
def scenarioFees1 : List ℚ :=
  [1500000000, 1500000000, 1500000000, 1500000000, 2000000000, 2000000000, 2000000000,
    4414699130, 4414699130, 4414699130, 4414699130]

/-- Samples realizing the tier triple `[1500000000, 1500000000, 2000000000]`. -/
def scenarioFees2 : List ℚ :=
  [1500000000, 1500000000, 1500000000, 1500000000, 1500000000, 1500000000, 1500000000,
    2000000000, 2000000000, 2000000000, 2000000000]

/-- Samples realizing the tier triple `[1500000000, 1900000000, 2500000000]`. -/
def scenarioFees3 : List ℚ :=
  [1500000000, 1500000000, 1500000000, 1500000000, 1900000000, 1900000000, 1900000000,
    2500000000, 2500000000, 2500000000, 2500000000]

/-- Samples realizing the tier triple `[1500000000, 1500000000, 2500000000]`. -/
def scenarioFees4 : List ℚ :=
  [1500000000, 1500000000, 1500000000, 1500000000, 1500000000, 1500000000, 1500000000,
    2500000000, 2500000000, 2500000000, 2500000000]

/-- The concrete scenario of the spec: four sampled blocks whose tier
triples are the given ones and a pending base fee of `13969109554`. -/
def scenarioProvider : Provider :=
  { blockNumber := 100
    getBlock := fun i =>
      if i = 96 then scenarioBlock 96 scenarioFees1
      else if i = 97 then scenarioBlock 97 scenarioFees2
      else if i = 98 then scenarioBlock 98 scenarioFees3
      else if i = 99 then scenarioBlock 99 scenarioFees4
      else scenarioBlock i []
    pendingBaseFee := 13969109554 }

lemma feeSamples_scenarioBlock (num : ℤ) (fees : List ℚ) :
    feeSamples (scenarioBlock num fees) = fees := by
  simp [feeSamples, scenarioBlock, mkTx, List.filter_map, Function.comp_def, List.map_map]

lemma quantile_q30_fees1 : quantile scenarioFees1 0.3 = some 1500000000 := by
  have hasc : asc scenarioFees1 = scenarioFees1 :=
    asc_eq_of_sorted (by norm_num [scenarioFees1, List.sorted_cons])
  rw [quantile_eq_quantileSpec scenarioFees1 (by simp [scenarioFees1]) (by norm_num)
    (by norm_num)]
  congr 1
  rw [quantileSpec_eq_rankValue, hasc]
  norm_num [rankValue, scenarioFees1, List.getD, show Int.toNat 3 = 3 from rfl]

lemma quantile_q30_fees2 : quantile scenarioFees2 0.3 = some 1500000000 := by
  have hasc : asc scenarioFees2 = scenarioFees2 :=
    asc_eq_of_sorted (by norm_num [scenarioFees2, List.sorted_cons])
  rw [quantile_eq_quantileSpec scenarioFees2 (by simp [scenarioFees2]) (by norm_num)
    (by norm_num)]
  congr 1
  rw [quantileSpec_eq_rankValue, hasc]
  norm_num [rankValue, scenarioFees2, List.getD, show Int.toNat 3 = 3 from rfl]

lemma quantile_q30_fees3 : quantile scenarioFees3 0.3 = some 1500000000 := by
  have hasc : asc scenarioFees3 = scenarioFees3 :=
    asc_eq_of_sorted (by norm_num [scenarioFees3, List.sorted_cons])
  rw [quantile_eq_quantileSpec scenarioFees3 (by simp [scenarioFees3]) (by norm_num)
    (by norm_num)]
  congr 1
  rw [quantileSpec_eq_rankValue, hasc]
  norm_num [rankValue, scenarioFees3, List.getD, show Int.toNat 3 = 3 from rfl]

lemma quantile_q30_fees4 : quantile scenarioFees4 0.3 = some 1500000000 := by
  have hasc : asc scenarioFees4 = scenarioFees4 :=
    asc_eq_of_sorted (by norm_num [scenarioFees4, List.sorted_cons])
  rw [quantile_eq_quantileSpec scenarioFees4 (by simp [scenarioFees4]) (by norm_num)
    (by norm_num)]
  congr 1
  rw [quantileSpec_eq_rankValue, hasc]
  norm_num [rankValue, scenarioFees4, List.getD, show Int.toNat 3 = 3 from rfl]

/-- Claim C2: the estimator samples exactly the four most recent confirmed
blocks `[N − 4, N)`, derives per-block tiers as the 0.3 / 0.6 / 0.9
quantiles of the type-2 priority fees, and each returned bid is the pending
base fee plus the mean of the corresponding tier across the window; in the
concrete scenario with the given tier triples and pending base fee
`13969109554` the slow bid is `15469109554`. -/
theorem gasEstimator_window_tiers_scenario :
    (∀ n : ℤ, windowNumbers n = [n - 4, n - 3, n - 2, n - 1]) ∧
    (∀ p : Provider,
      gasEstimator p =
        { slow := (meanN ((windowNumbers p.blockNumber).map
              (fun k => quantile (feeSamples (p.getBlock k)) 0.3))).map
                (fun t => p.pendingBaseFee + t)
          average := (meanN ((windowNumbers p.blockNumber).map
              (fun k => quantile (feeSamples (p.getBlock k)) 0.6))).map
                (fun t => p.pendingBaseFee + t)
          fast := (meanN ((windowNumbers p.blockNumber).map
              (fun k => quantile (feeSamples (p.getBlock k)) 0.9))).map
                (fun t => p.pendingBaseFee + t) }) ∧
    (gasEstimator scenarioProvider).slow = some 15469109554 := by
  refine ⟨windowNumbers_eq, gasEstimator_eq, ?_⟩
  have hw : (windowNumbers scenarioProvider.blockNumber).map
      (fun k => quantile (feeSamples (scenarioProvider.getBlock k)) 0.3) =
      [some 1500000000, some 1500000000, some 1500000000, some 1500000000] := by
    have hb : scenarioProvider.blockNumber = 100 := rfl
    rw [hb, windowNumbers_eq]
    norm_num [scenarioProvider, feeSamples_scenarioBlock]
    have hnorm : (3 / 10 : ℚ) = 0.3 := by norm_num
    rw [hnorm]
    exact ⟨quantile_q30_fees1, quantile_q30_fees2, quantile_q30_fees3, quantile_q30_fees4⟩
  rw [gasEstimator_eq]
  simp only [hw]
  rw [meanN_four]
  norm_num [jsRound, round_eq, scenarioProvider]

/-- Claim C9: when every block in the sampled window has zero type-2
transactions, the estimation still completes and its result is fully
determined: every tier is the NaN produced by the empty-input behaviour of
`quantile` and `mean`, so the estimate is the NaN triple (modelled `none`),
deterministically for any such window. -/
theorem estimator_all_empty_blocks (p : Provider)
    (h : ∀ k ∈ windowNumbers p.blockNumber, feeSamples (p.getBlock k) = []) :
    gasEstimator p = { slow := none, average := none, fast := none } := by
  rw [gasEstimator_eq]
  have hw := windowNumbers_eq p.blockNumber
  have h1 : feeSamples (p.getBlock (p.blockNumber - 4)) = [] := h _ (by rw [hw]; simp)
  have h2 : feeSamples (p.getBlock (p.blockNumber - 3)) = [] := h _ (by rw [hw]; simp)
  have h3 : feeSamples (p.getBlock (p.blockNumber - 2)) = [] := h _ (by rw [hw]; simp)
  have h4 : feeSamples (p.getBlock (p.blockNumber - 1)) = [] := h _ (by rw [hw]; simp)
  rw [hw]
  simp only [List.map_cons, List.map_nil, h1, h2, h3, h4, quantile_empty]
  rw [meanN_nones]
  rfl

/-- A fixture window whose four sampled blocks all have an empty transaction
list (hence zero type-2 transactions). -/
def emptyProvider : Provider :=
  { blockNumber := 10
    getBlock := fun i =>
      { number := i, baseFeePerGas := 5, gasUsed := 0, gasLimit := 1, transactions := [] }
    pendingBaseFee := 7 }

/-- Witness for claim C9 at the all-empty fixture window. -/
theorem estimator_all_empty_blocks_witness :
    gasEstimator emptyProvider = { slow := none, average := none, fast := none } :=
  estimator_all_empty_blocks emptyProvider (fun k _ => by simp [feeSamples, emptyProvider])

/-- Claim C10: when every sampled block has at least one type-2 transaction,
the estimate is defined and ordered: slow ≤ average ≤ fast. -/
theorem estimate_is_ordered (p : Provider)
    (h : ∀ k ∈ windowNumbers p.blockNumber, feeSamples (p.getBlock k) ≠ []) :
    ∃ s a f, gasEstimator p = { slow := some s, average := some a, fast := some f } ∧
      s ≤ a ∧ a ≤ f := by
  have hw := windowNumbers_eq p.blockNumber
  have hne1 : feeSamples (p.getBlock (p.blockNumber - 4)) ≠ [] := h _ (by rw [hw]; simp)
  have hne2 : feeSamples (p.getBlock (p.blockNumber - 3)) ≠ [] := h _ (by rw [hw]; simp)
  have hne3 : feeSamples (p.getBlock (p.blockNumber - 2)) ≠ [] := h _ (by rw [hw]; simp)
  have hne4 : feeSamples (p.getBlock (p.blockNumber - 1)) ≠ [] := h _ (by rw [hw]; simp)
  rw [gasEstimator_eq, hw]
  simp only [List.map_cons, List.map_nil]
  rw [quantile_eq_quantileSpec _ hne1 (by norm_num : (0:ℚ) ≤ 0.3) (by norm_num : (0.3:ℚ) ≤ 1),
    quantile_eq_quantileSpec _ hne2 (by norm_num : (0:ℚ) ≤ 0.3) (by norm_num : (0.3:ℚ) ≤ 1),
    quantile_eq_quantileSpec _ hne3 (by norm_num : (0:ℚ) ≤ 0.3) (by norm_num : (0.3:ℚ) ≤ 1),
    quantile_eq_quantileSpec _ hne4 (by norm_num : (0:ℚ) ≤ 0.3) (by norm_num : (0.3:ℚ) ≤ 1),
    quantile_eq_quantileSpec _ hne1 (by norm_num : (0:ℚ) ≤ 0.6) (by norm_num : (0.6:ℚ) ≤ 1),
    quantile_eq_quantileSpec _ hne2 (by norm_num : (0:ℚ) ≤ 0.6) (by norm_num : (0.6:ℚ) ≤ 1),
    quantile_eq_quantileSpec _ hne3 (by norm_num : (0:ℚ) ≤ 0.6) (by norm_num : (0.6:ℚ) ≤ 1),
    quantile_eq_quantileSpec _ hne4 (by norm_num : (0:ℚ) ≤ 0.6) (by norm_num : (0.6:ℚ) ≤ 1),
    quantile_eq_quantileSpec _ hne1 (by norm_num : (0:ℚ) ≤ 0.9) (by norm_num : (0.9:ℚ) ≤ 1),
    quantile_eq_quantileSpec _ hne2 (by norm_num : (0:ℚ) ≤ 0.9) (by norm_num : (0.9:ℚ) ≤ 1),
    quantile_eq_quantileSpec _ hne3 (by norm_num : (0:ℚ) ≤ 0.9) (by norm_num : (0.9:ℚ) ≤ 1),
    quantile_eq_quantileSpec _ hne4 (by norm_num : (0:ℚ) ≤ 0.9) (by norm_num : (0.9:ℚ) ≤ 1),
    meanN_four, meanN_four, meanN_four]
  simp only [Option.map_some']
  refine ⟨_, _, _, rfl, ?_, ?_⟩
  · have m1 := quantileSpec_mono _ hne1 (by norm_num : (0:ℚ) ≤ 0.3)
      (by norm_num : (0.3:ℚ) ≤ 0.6) (by norm_num : (0.6:ℚ) ≤ 1)
    have m2 := quantileSpec_mono _ hne2 (by norm_num : (0:ℚ) ≤ 0.3)
      (by norm_num : (0.3:ℚ) ≤ 0.6) (by norm_num : (0.6:ℚ) ≤ 1)
    have m3 := quantileSpec_mono _ hne3 (by norm_num : (0:ℚ) ≤ 0.3)
      (by norm_num : (0.3:ℚ) ≤ 0.6) (by norm_num : (0.6:ℚ) ≤ 1)
    have m4 := quantileSpec_mono _ hne4 (by norm_num : (0:ℚ) ≤ 0.3)
      (by norm_num : (0.3:ℚ) ≤ 0.6) (by norm_num : (0.6:ℚ) ≤ 1)
    exact add_le_add_left (jsRound_mono (by linarith)) _
  · have m1 := quantileSpec_mono _ hne1 (by norm_num : (0:ℚ) ≤ 0.6)
      (by norm_num : (0.6:ℚ) ≤ 0.9) (by norm_num : (0.9:ℚ) ≤ 1)
    have m2 := quantileSpec_mono _ hne2 (by norm_num : (0:ℚ) ≤ 0.6)
      (by norm_num : (0.6:ℚ) ≤ 0.9) (by norm_num : (0.9:ℚ) ≤ 1)
    have m3 := quantileSpec_mono _ hne3 (by norm_num : (0:ℚ) ≤ 0.6)
      (by norm_num : (0.6:ℚ) ≤ 0.9) (by norm_num : (0.9:ℚ) ≤ 1)
    have m4 := quantileSpec_mono _ hne4 (by norm_num : (0:ℚ) ≤ 0.6)
      (by norm_num : (0.6:ℚ) ≤ 0.9) (by norm_num : (0.9:ℚ) ≤ 1)
    exact add_le_add_left (jsRound_mono (by linarith)) _

/-- Witness for claim C10 at the concrete scenario window, in which every
block holds eleven type-2 transactions. -/
theorem estimate_is_ordered_witness :
    ∃ s a f, gasEstimator scenarioProvider =
      { slow := some s, average := some a, fast := some f } ∧ s ≤ a ∧ a ≤ f := by
  apply estimate_is_ordered scenarioProvider
  intro k hk
  have hb : scenarioProvider.blockNumber = 100 := rfl
  rw [hb, windowNumbers_eq] at hk
  norm_num at hk
  rcases hk with rfl | rfl | rfl | rfl <;>
    (norm_num [scenarioProvider, feeSamples_scenarioBlock, scenarioFees1, scenarioFees2,
       scenarioFees3, scenarioFees4]
     exact List.cons_ne_nil _ _)
